import Mathlib

/-!
Verification of core algorithms of the PyWGCNA `main.py` module
(data-quality filtering, block planning, soft-threshold selection,
adjacency construction) via a shallow embedding in Lean.

Numbers: Python floats are idealised as rationals (`ℚ`); the IEEE special
values that the code manipulates explicitly (NaN, ±inf) are modelled by
dedicated inductive value types where a component's behaviour depends on
them.  Matrices are lists of rows.  `sys.exit` / Python exceptions are
modelled with `Except String`; `while` loops are modelled with explicit
fuel, one unit of fuel per executed loop iteration.
-/

/- Core marks the rational field operations irreducible for the
elaborator; re-expose them so that concrete witnesses can be settled by
kernel evaluation (`decide` / `rfl`).  This has no logical content. -/
attribute [local semireducible] Rat.add Rat.mul Rat.inv Rat.sub

namespace PyWGCNA

/-! ## BlockPlanner: `calBlockSize` (main.py lines 224-237)

```
def calBlockSize(matrixSize, rectangularBlocks=True, maxMemoryAllocation=None, overheadFactor=3):
    if maxMemoryAllocation is None:
        maxAlloc = resource.getrlimit(resource.RLIMIT_AS)[1]
    else:
        maxAlloc = maxMemoryAllocation / 8
    maxAlloc = maxAlloc / overheadFactor
    if rectangularBlocks:
        blockSz = math.floor(maxAlloc / matrixSize)
    else:
        blockSz = math.floor(math.sqrt(maxAlloc))
    return min(matrixSize, blockSz)
```
Only the branch with an explicitly supplied memory ceiling is modelled
(the `None` branch reads the process RLIMIT_AS, an environment value).
`math.floor (math.sqrt x)` equals `Nat.sqrt ⌊x⌋` for `x ≥ 0`, which is how
the square-block branch is expressed below. -/

def calBlockSize (matrixSize : ℕ) (rectangularBlocks : Bool)
    (maxMemoryAllocation overheadFactor : ℚ) : ℤ :=
  let maxAlloc : ℚ := maxMemoryAllocation / 8 / overheadFactor
  let blockSz : ℤ :=
    if rectangularBlocks then ⌊maxAlloc / (matrixSize : ℚ)⌋
    else (Nat.sqrt (Int.toNat ⌊maxAlloc⌋) : ℤ)
  min (matrixSize : ℤ) blockSz

/-- C2 counterexample: with gene count 100, memory ceiling 8 bytes and the
default overhead factor 3 (all positive, overhead ≥ 1), `calBlockSize`
returns 0, which is outside the claimed range [1, gene_count]. -/
theorem calBlockSize_returns_zero :
    calBlockSize 100 true 8 3 = 0 ∧ ¬(1 ≤ calBlockSize 100 true 8 3) := by
  constructor
  · decide
  · decide

/-- C2 (amended): for every positive gene count, non-negative memory
ceiling and overhead factor at least 1, `calBlockSize` returns a block
size in the inclusive range [0, gene_count]; it is never negative, but it
can be 0 for degenerate ceilings (there is no flooring at 1). -/
theorem calBlockSize_in_range (matrixSize : ℕ) (rect : Bool) (mem ov : ℚ)
    (hm : 1 ≤ matrixSize) (hmem : 0 ≤ mem) (hov : 1 ≤ ov) :
    0 ≤ calBlockSize matrixSize rect mem ov ∧
      calBlockSize matrixSize rect mem ov ≤ (matrixSize : ℤ) := by
  have hov0 : (0 : ℚ) ≤ ov := le_trans zero_le_one hov
  have halloc : (0 : ℚ) ≤ mem / 8 / ov :=
    div_nonneg (div_nonneg hmem (by norm_num)) hov0
  constructor
  · apply le_min
    · exact_mod_cast Nat.zero_le matrixSize
    · cases rect with
      | true =>
          show 0 ≤ ⌊(mem / 8 / ov) / (matrixSize : ℚ)⌋
          exact Int.floor_nonneg.mpr (div_nonneg halloc (Nat.cast_nonneg _))
      | false =>
          show 0 ≤ ((Nat.sqrt (Int.toNat ⌊mem / 8 / ov⌋) : ℕ) : ℤ)
          exact_mod_cast Nat.zero_le _
  · exact min_le_left _ _

/-- C2 witness: the amended range theorem applied at gene count 100,
rectangular blocks, the 2^30-byte ceiling used by `pickSoftThreshold`,
and the default overhead factor 3. -/
theorem calBlockSize_in_range_witness :
    (1 ≤ 100 ∧ (0 : ℚ) ≤ 2 ^ 30 ∧ (1 : ℚ) ≤ 3) ∧
      (0 ≤ calBlockSize 100 true (2 ^ 30) 3 ∧
        calBlockSize 100 true (2 ^ 30) 3 ≤ (100 : ℤ)) :=
  ⟨⟨by norm_num, by norm_num, by norm_num⟩,
    calBlockSize_in_range 100 true (2 ^ 30) 3 (by norm_num) (by norm_num)
      (by norm_num)⟩

/-! ## SoftThresholdSelector: final power selection (main.py lines 395-401)

```
ind1 = datout.iloc[:, 1] > RsquaredCut
indcut = None
if sum(ind1) > 0:
    indcut = min(range(len(ind1))[ind1])
powerEstimate = powerVector[indcut]
return powerEstimate, datout
```
`ind1` is a pandas boolean Series (the R² column compared against the
cutoff).  When at least one entry is true, `range(len(ind1))[ind1]`
indexes a Python `range` object with a Series, which raises
`TypeError: range indices must be integers or slices` — the selection of
the minimal qualifying index is never reached.  When no entry is true,
`indcut` stays `None` and `powerVector[indcut]` is numpy indexing with
`None`, i.e. `np.newaxis`: it silently returns the whole power vector
reshaped to shape (1, n) instead of any failure signal. -/

inductive PowerSelect where
  | pyTypeError : PowerSelect
  | newaxisFullVector : List ℚ → PowerSelect
deriving DecidableEq

def pickSoftThresholdSelect (rsqCol : List ℚ) (powerVector : List ℚ)
    (rsquaredCut : ℚ) : PowerSelect :=
  let ind1 := rsqCol.map (fun r => decide (rsquaredCut < r))
  if 0 < ind1.count true then PowerSelect.pyTypeError
  else PowerSelect.newaxisFullVector powerVector

/-- C1: with the default cutoff 0.85 and a fit table whose R² column is
[0.5, 0.5, 0.5] (no candidate power qualifies), the selection code of
`pickSoftThreshold` returns the whole power vector under a numpy newaxis
(`powerVector[None]`) — a silently returned non-failure value, not a
NoPowerMeetsThreshold signal; and when some power does qualify, the
`min(range(len(ind1))[ind1])` expression raises a TypeError instead of
returning the smallest qualifying power. -/
theorem pickSoftThreshold_no_failure_signal :
    pickSoftThresholdSelect [1/2, 1/2, 1/2] [1, 2, 3] (17/20) =
        PowerSelect.newaxisFullVector [1, 2, 3] ∧
      pickSoftThresholdSelect [1/2, 9/10, 9/10] [1, 2, 3] (17/20) =
        PowerSelect.pyTypeError := by
  constructor <;> decide

/-! ## Block partition loop of `pickSoftThreshold` (main.py lines 305-372)

```
datk = np.zeros((nGenes, len(powerVector)))
startG = 0
while startG <= nGenes:
    endG = min(startG + blockSize - 1, nGenes)
    useGenes = list(range(startG, endG))
    ...
    datk[startG:endG, :] = datk_local
    startG = endG + 1
```
`blockCover nGenes blockSize` is the concatenation of all `useGenes`
lists produced by the loop (the set of gene indices whose `datk` rows are
ever written).  The loop is modelled with fuel (`none` = the loop did not
finish within the supplied fuel); `nGenes + 2` units suffice for any
positive block size because `startG` strictly increases. -/

def blockCoverAux (nGenes blockSize : ℕ) : ℕ → ℕ → Option (List ℕ)
  | 0, _ => none
  | fuel + 1, startG =>
    if startG ≤ nGenes then
      let endG := min (startG + blockSize - 1) nGenes
      match blockCoverAux nGenes blockSize fuel (endG + 1) with
      | none => none
      | some rest => some (List.range' startG (endG - startG) ++ rest)
    else some []

def blockCover (nGenes blockSize : ℕ) : Option (List ℕ) :=
  blockCoverAux nGenes blockSize (nGenes + 2) 0

/-- C9: with 3 genes and block size 3, the block loop of
`pickSoftThreshold` processes only gene indices [0, 1]: index 2 = endG is
excluded from `useGenes = range(startG, endG)` (endG-exclusive) while the
next block starts at endG + 1, so gene 2 is covered by no block and its
row of `datk` keeps its initialization value (which is 0 from `np.zeros`,
not NaN). -/
theorem pickSoftThreshold_block_loop_skips_gene :
    blockCover 3 3 = some [0, 1] ∧ 2 < 3 ∧ (2 : ℕ) ∉ [0, 1] := by
  refine ⟨rfl, by norm_num, by decide⟩

/-! ## AdjacencyBuilder: type dispatch and remap (main.py lines 18-19, 404-463)

```
adjacencyTypes = ["unsigned", "signed"]
...
intType = adjacencyTypes.index(type)
...
if intType == 1:
    cor_mat = abs(cor_mat)
elif intType == 2:
    cor_mat = (1 + cor_mat) / 2
elif intType == 3:
    cor_mat[cor_mat < 0] = 0
return cor_mat ^ power
```
`list.index` is 0-based ("unsigned" → 0, "signed" → 1) while the remap
branches test against 1, 2, 3 (the 1-based scheme of the R original), so
"signed" receives the absolute-value remap and "unsigned" receives no
remap at all.  (`cor_mat ^ power` is bitwise xor, a TypeError on float
matrices; it is not part of the remap stage modelled here.) -/

def adjacencyTypes : List String := ["unsigned", "signed"]

def adjacencyRemapStage (intType : ℕ) (m : List (List ℚ)) : List (List ℚ) :=
  if intType = 1 then m.map (fun r => r.map (fun c => |c|))
  else if intType = 2 then m.map (fun r => r.map (fun c => (1 + c) / 2))
  else if intType = 3 then m.map (fun r => r.map (fun c => if c < 0 then 0 else c))
  else m

/-- C5: `adjacency` resolves type "signed" to intType = 1, and the remap
stage at intType = 1 applies the absolute value (leaving the matrix with
diagonal 1 and off-diagonal 0.5 unchanged), not the claimed
(1 + cor) / 2 rescale which would give 0.75 off-diagonal. -/
theorem adjacency_signed_remaps_by_abs :
    adjacencyTypes.indexOf "signed" = 1 ∧
      adjacencyRemapStage 1 [[1, 1/2], [1/2, 1]] = [[1, 1/2], [1/2, 1]] ∧
      adjacencyRemapStage 1 [[1, 1/2], [1/2, 1]] ≠ [[1, 3/4], [3/4, 1]] := by
  refine ⟨by decide, by decide, by decide⟩

/-! ## Block connectivity computation of `pickSoftThreshold` (main.py lines 342-368)

The entries of a block correlation matrix `corx` are either finite floats
(correlations, or the values written by `corx[ind] = 1`) or NaN (numpy
`corrcoef` on zero-variance pairs); no infinities occur at this stage.
`CVal` models this value domain; `cMul` / `cPow` follow numpy elementwise
float semantics (NaN is absorbing, except that `x ** 0 = 1.0` for every
`x` including NaN). -/

inductive CVal where
  | cnum : ℚ → CVal
  | cnan : CVal
deriving DecidableEq

open CVal

def cMul : CVal → CVal → CVal
  | cnan, _ => cnan
  | _, cnan => cnan
  | cnum a, cnum b => cnum (a * b)

def cPow (v : CVal) : ℕ → CVal
  | 0 => cnum 1
  | n + 1 =>
    match v with
    | cnan => cnan
    | cnum q => cnum (q ^ (n + 1))

def cAdd : CVal → CVal → CVal
  | cnan, _ => cnan
  | _, cnan => cnan
  | cnum a, cnum b => cnum (a + b)

def cIsNaN : CVal → Bool
  | cnan => true
  | _ => false

/-- np.nansum treats a NaN summand as zero. -/
def nanToZero : CVal → CVal
  | cnan => cnum 0
  | v => v

abbrev CMat := List (List CVal)

/-- Elementwise matrix product (numpy `*` on same-shape arrays). -/
def matMulE (a b : CMat) : CMat := List.zipWith (List.zipWith cMul) a b

/-- Elementwise matrix power (numpy `corx ** pow`). -/
def matPow (m : CMat) (n : ℕ) : CMat := m.map (fun r => r.map (fun v => cPow v n))

/-- `np.ones(corx.shape)` (the initial `corxPrev`). -/
def onesLike (m : CMat) : CMat := m.map (fun r => r.map (fun _ => cnum 1))

/-- `powerSteps = powerVector - [0] ++ powerVector[:-1]`, i.e. the list of
gaps between consecutive candidate powers (natural subtraction; the code
sorts `powerVector` first, so gaps are non-negative). -/
def powerSteps : ℕ → List ℕ → List ℕ
  | _, [] => []
  | e, p :: rest => (p - e) :: powerSteps p rest

/-- The sequence of `corxCur` matrices of the loop
```
corxPrev = np.ones(corx.shape)
for j in range(nPowers):
    corxCur = corxPrev * corxPowers[powerSteps[j]][0]
    datk_local[:, j] = np.nansum(corxCur, axis=0) - 1
    corxPrev = corxCur
```
(`corxPowers[p][0]` is the memoised `corx ** p`; memoisation by unique
step value is semantically transparent, so it is modelled as applying
`matPow` directly). -/
def incrSeq (corx : CMat) : CMat → List ℕ → List CMat
  | _, [] => []
  | prev, s :: rest =>
    let cur := matMulE prev (matPow corx s)
    cur :: incrSeq corx cur rest

def corxCurs (corx : CMat) (powerVector : List ℕ) : List CMat :=
  incrSeq corx (onesLike corx) (powerSteps 0 powerVector)

/-- `np.count_nonzero(np.isnan(corx)) != 0` — the warning condition of
lines 342-344. -/
def matHasNaN (m : CMat) : Bool := m.any (fun r => r.any cIsNaN)

/-- `np.nansum(corxCur, axis=0)`: per-column sums with NaN contributing
zero; `w` is the number of columns of the block. -/
def colNanSums (m : CMat) (w : ℕ) : List CVal :=
  m.foldr (fun row acc => List.zipWith (fun x a => cAdd (nanToZero x) a) row acc)
    (List.replicate w (cnum 0))

/-- Subtraction of the self-connection (`- 1`). -/
def cSubOne : CVal → CVal
  | cnan => cnan
  | cnum a => cnum (a - 1)

/-- The block-local connectivity table `datk_local`, one row per candidate
power, one entry per gene of the block. -/
def blockDatk (corx : CMat) (powerVector : List ℕ) (w : ℕ) : List (List CVal) :=
  (corxCurs corx powerVector).map (fun cc => (colNanSums cc w).map cSubOne)

def mapNanToZero (m : CMat) : CMat := m.map (fun r => r.map nanToZero)

/-! Helper lemmas for the incremental exponentiation scheme. -/

lemma cPow_add (v : CVal) (a b : ℕ) :
    cPow v (a + b) = cMul (cPow v a) (cPow v b) := by
  cases v with
  | cnum q =>
      cases a with
      | zero =>
          cases b <;> simp [cPow, cMul, one_mul]
      | succ a' =>
          cases b with
          | zero => simp [cPow, cMul, mul_one]
          | succ b' =>
              show cPow (cnum q) (a' + 1 + (b' + 1)) = cnum (q ^ (a' + 1) * q ^ (b' + 1))
              have h : a' + 1 + (b' + 1) = (a' + b' + 1) + 1 := by omega
              rw [h]
              show cnum (q ^ (a' + b' + 1 + 1)) = cnum (q ^ (a' + 1) * q ^ (b' + 1))
              rw [show a' + b' + 1 + 1 = (a' + 1) + (b' + 1) by omega, pow_add]
  | cnan =>
      cases a with
      | zero => cases b <;> simp [cPow, cMul]
      | succ a' => cases b <;> simp [cPow, cMul]

lemma zipWith_map_both {α β γ : Type} (f : β → β → γ) (g h : α → β)
    (l : List α) :
    List.zipWith f (l.map g) (l.map h) = l.map (fun x => f (g x) (h x)) := by
  induction l with
  | nil => rfl
  | cons a t ih => simp [List.zipWith, ih]

lemma matPow_mul_matPow (m : CMat) (a b : ℕ) :
    matMulE (matPow m a) (matPow m b) = matPow m (a + b) := by
  unfold matMulE matPow
  rw [zipWith_map_both]
  apply List.map_congr_left
  intro r _
  rw [zipWith_map_both]
  apply List.map_congr_left
  intro v _
  exact (cPow_add v a b).symm

lemma onesLike_eq_matPow_zero (m : CMat) : onesLike m = matPow m 0 := by
  unfold onesLike matPow
  apply List.map_congr_left
  intro r _
  apply List.map_congr_left
  intro v _
  rfl

/-- Fundamental property of the incremental loop: starting from
`corx ** a`, after consuming steps `s₀ … sⱼ` the current matrix is
`corx ** (a + s₀ + … + sⱼ)` — no ordering assumption needed here. -/
lemma incrSeq_eq_map_of_chain (corx : CMat) :
    ∀ (pv : List ℕ) (a : ℕ), List.Chain (· ≤ ·) a pv →
      incrSeq corx (matPow corx a) (powerSteps a pv) =
        pv.map (fun p => matPow corx p) := by
  intro pv
  induction pv with
  | nil => intro a _; rfl
  | cons p rest ih =>
      intro a hchain
      rcases hchain with _ | ⟨hap, hrest⟩
      show (let cur := matMulE (matPow corx a) (matPow corx (p - a));
            cur :: incrSeq corx cur (powerSteps p rest)) =
        matPow corx p :: rest.map (fun q => matPow corx q)
      have hcur : matMulE (matPow corx a) (matPow corx (p - a)) = matPow corx p := by
        rw [matPow_mul_matPow, Nat.add_sub_cancel' hap]
      simp only [hcur]
      exact congrArg (matPow corx p :: ·) (ih p hrest)

/-- C8: for every block matrix and every ascending candidate power
vector, the incremental scheme (each step multiplies the previous step's
matrix by the base raised to the gap between consecutive powers) produces
exactly the base matrix raised elementwise to `powerVector[j]`, i.e. it
coincides with straightforward per-power full exponentiation. -/
theorem pickSoftThreshold_incremental_pow_equiv (corx : CMat)
    (powerVector : List ℕ) (hsorted : List.Chain' (· ≤ ·) powerVector) :
    corxCurs corx powerVector = powerVector.map (fun p => matPow corx p) := by
  unfold corxCurs
  rw [onesLike_eq_matPow_zero]
  apply incrSeq_eq_map_of_chain
  cases powerVector with
  | nil => exact List.Chain.nil
  | cons p rest => exact List.Chain.cons (Nat.zero_le p) hsorted

/-- C8 witness: the equivalence evaluated on a concrete 2×2 block matrix
(containing a NaN) and the ascending powers [1, 2, 4]. -/
theorem pickSoftThreshold_incremental_pow_equiv_witness :
    List.Chain' (· ≤ ·) [1, 2, 4] ∧
      corxCurs [[cnum (1/2), cnan], [cnum 1, cnum (-1/3)]] [1, 2, 4] =
        ([1, 2, 4] : List ℕ).map
          (fun p => matPow [[cnum (1/2), cnan], [cnum 1, cnum (-1/3)]] p) :=
  ⟨List.Chain.cons (by omega) (List.Chain.cons (by omega) List.Chain.nil),
    pickSoftThreshold_incremental_pow_equiv
      [[cnum (1/2), cnan], [cnum 1, cnum (-1/3)]] [1, 2, 4]
      (List.Chain.cons (by omega) (List.Chain.cons (by omega) List.Chain.nil))⟩

/-! Lemmas for the NaN-contributes-zero property (C7). -/

lemma nanToZero_cPow_nanToZero (v : CVal) (n : ℕ) :
    nanToZero (cPow (nanToZero v) n) = nanToZero (cPow v n) := by
  cases v with
  | cnum q => rfl
  | cnan =>
      cases n with
      | zero => rfl
      | succ k =>
          show nanToZero (cnum ((0 : ℚ) ^ (k + 1))) = cnum 0
          rw [zero_pow (Nat.succ_ne_zero k)]
          rfl

lemma zipWith_fun_ext {α β γ : Type} {f g : α → β → γ}
    (h : ∀ a b, f a b = g a b) :
    ∀ (l : List α) (l' : List β), List.zipWith f l l' = List.zipWith g l l' := by
  intro l
  induction l with
  | nil => intro l'; rfl
  | cons a t ih =>
      intro l'
      cases l' with
      | nil => rfl
      | cons b t' => simp [List.zipWith, h a b, ih t']

lemma colNanSums_matPow_mapNan (m : CMat) (n w : ℕ) :
    colNanSums (matPow (mapNanToZero m) n) w = colNanSums (matPow m n) w := by
  unfold colNanSums matPow mapNanToZero
  induction m with
  | nil => rfl
  | cons r t ih =>
      simp only [List.map_cons, List.foldr_cons]
      rw [ih]
      rw [List.zipWith_map_left, List.zipWith_map_left, List.zipWith_map_left]
      apply zipWith_fun_ext
      intro v a
      rw [nanToZero_cPow_nanToZero]

lemma incrSeq_datk_mapNan (corx : CMat) (w : ℕ) :
    ∀ (steps : List ℕ) (a : ℕ),
      (incrSeq (mapNanToZero corx) (matPow (mapNanToZero corx) a) steps).map
          (fun cc => (colNanSums cc w).map cSubOne) =
        (incrSeq corx (matPow corx a) steps).map
          (fun cc => (colNanSums cc w).map cSubOne) := by
  intro steps
  induction steps with
  | nil => intro a; rfl
  | cons s rest ih =>
      intro a
      show (let cur := matMulE (matPow (mapNanToZero corx) a)
                (matPow (mapNanToZero corx) s);
            ((colNanSums cur w).map cSubOne) ::
              (incrSeq (mapNanToZero corx) cur rest).map
                (fun cc => (colNanSums cc w).map cSubOne)) =
          (let cur := matMulE (matPow corx a) (matPow corx s);
            ((colNanSums cur w).map cSubOne) ::
              (incrSeq corx cur rest).map
                (fun cc => (colNanSums cc w).map cSubOne))
      simp only [matPow_mul_matPow]
      congr 1
      · rw [colNanSums_matPow_mapNan]
      · exact ih (a + s)

lemma powerSteps_length : ∀ (e : ℕ) (pv : List ℕ),
    (powerSteps e pv).length = pv.length := by
  intro e pv
  induction pv generalizing e with
  | nil => rfl
  | cons p rest ih => simp [powerSteps, ih]

lemma incrSeq_length (corx : CMat) :
    ∀ (steps : List ℕ) (prev : CMat),
      (incrSeq corx prev steps).length = steps.length := by
  intro steps
  induction steps with
  | nil => intro prev; rfl
  | cons s rest ih => intro prev; simp [incrSeq, ih]

/-- Rectangularity: every row has length `w`. -/
abbrev MatRect (m : CMat) (w : ℕ) : Prop := ∀ r ∈ m, r.length = w

lemma matRect_matPow {m : CMat} {w : ℕ} (h : MatRect m w) (n : ℕ) :
    MatRect (matPow m n) w := by
  intro r hr
  rcases List.mem_map.mp hr with ⟨r0, hr0, rfl⟩
  simp [h r0 hr0]

lemma matRect_matMulE {w : ℕ} :
    ∀ {a b : CMat}, MatRect a w → MatRect b w → MatRect (matMulE a b) w := by
  intro a
  induction a with
  | nil => intro b _ _ r hr; cases hr
  | cons ra ta ih =>
      intro b hA hB r hr
      cases b with
      | nil => cases hr
      | cons rb tb =>
          rw [show matMulE (ra :: ta) (rb :: tb) =
              List.zipWith cMul ra rb :: matMulE ta tb from rfl] at hr
          rcases List.mem_cons.mp hr with rfl | hmem
          · rw [List.length_zipWith, hA ra (List.mem_cons_self _ _),
              hB rb (List.mem_cons_self _ _)]
            omega
          · exact ih (fun x hx => hA x (List.mem_cons_of_mem _ hx))
              (fun x hx => hB x (List.mem_cons_of_mem _ hx)) r hmem

lemma matRect_onesLike {m : CMat} {w : ℕ} (h : MatRect m w) :
    MatRect (onesLike m) w := by
  intro r hr
  rcases List.mem_map.mp hr with ⟨r0, hr0, rfl⟩
  simp [h r0 hr0]

lemma matRect_incrSeq {corx : CMat} {w : ℕ} (hc : MatRect corx w) :
    ∀ (steps : List ℕ) (prev : CMat), MatRect prev w →
      ∀ cc ∈ incrSeq corx prev steps, MatRect cc w := by
  intro steps
  induction steps with
  | nil => intro prev _ cc hcc; cases hcc
  | cons s rest ih =>
      intro prev hprev cc hcc
      have hcur : MatRect (matMulE prev (matPow corx s)) w :=
        matRect_matMulE hprev (matRect_matPow hc s)
      rw [show incrSeq corx prev (s :: rest) =
          matMulE prev (matPow corx s) ::
            incrSeq corx (matMulE prev (matPow corx s)) rest from rfl] at hcc
      rcases List.mem_cons.mp hcc with rfl | hmem
      · exact hcur
      · exact ih _ hcur cc hmem

lemma colNanSums_length {m : CMat} {w : ℕ} (h : MatRect m w) :
    (colNanSums m w).length = w := by
  unfold colNanSums
  induction m with
  | nil => simp
  | cons r t ih =>
      have hr : r.length = w := h r (List.mem_cons_self r t)
      have ht : MatRect t w := fun x hx => h x (List.mem_cons_of_mem r hx)
      simp only [List.foldr_cons]
      rw [List.length_zipWith, ih ht, hr]
      omega

/-- C7: in a block whose (transformed) correlation matrix contains NaN
entries, the NaN warning of lines 342-344 fires, every NaN entry
contributes exactly zero to the accumulated per-gene connectivity
(replacing all NaN entries by literal zeros leaves `datk_local`
unchanged), and nothing is dropped from the output shape: `datk_local`
keeps one row per candidate power and one entry per gene of the block. -/
theorem pickSoftThreshold_nan_warned_zero_contribution (corx : CMat)
    (powerVector : List ℕ) (w : ℕ) (hrect : MatRect corx w)
    (hnan : ∃ r ∈ corx, ∃ v ∈ r, v = cnan) :
    matHasNaN corx = true ∧
      blockDatk corx powerVector w = blockDatk (mapNanToZero corx) powerVector w ∧
      (blockDatk corx powerVector w).length = powerVector.length ∧
      ∀ row ∈ blockDatk corx powerVector w, row.length = w := by
  refine ⟨?_, ?_, ?_, ?_⟩
  · unfold matHasNaN
    rcases hnan with ⟨r, hr, v, hv, rfl⟩
    rw [List.any_eq_true]
    exact ⟨r, hr, List.any_eq_true.mpr ⟨cnan, hv, rfl⟩⟩
  · unfold blockDatk corxCurs
    rw [onesLike_eq_matPow_zero, onesLike_eq_matPow_zero]
    have hsteps : powerSteps 0 powerVector = powerSteps 0 powerVector := rfl
    exact (incrSeq_datk_mapNan corx w (powerSteps 0 powerVector) 0).symm
  · unfold blockDatk corxCurs
    rw [List.length_map, incrSeq_length, powerSteps_length]
  · intro row hrow
    unfold blockDatk at hrow
    rcases List.mem_map.mp hrow with ⟨cc, hcc, rfl⟩
    rw [List.length_map]
    apply colNanSums_length
    exact matRect_incrSeq hrect _ _ (matRect_onesLike hrect) cc hcc

/-- C7 witness: the theorem applied to a concrete 2×2 block matrix with a
NaN entry and candidate powers [1, 2]. -/
theorem pickSoftThreshold_nan_warned_zero_contribution_witness :
    MatRect [[cnan, cnum (1/2)], [cnum 1, cnum (1/4)]] 2 ∧
      (∃ r ∈ [[cnan, cnum (1/2)], [cnum 1, cnum (1/4)]], ∃ v ∈ r, v = cnan) ∧
      (matHasNaN [[cnan, cnum (1/2)], [cnum 1, cnum (1/4)]] = true ∧
        blockDatk [[cnan, cnum (1/2)], [cnum 1, cnum (1/4)]] [1, 2] 2 =
          blockDatk (mapNanToZero [[cnan, cnum (1/2)], [cnum 1, cnum (1/4)]]) [1, 2] 2 ∧
        (blockDatk [[cnan, cnum (1/2)], [cnum 1, cnum (1/4)]] [1, 2] 2).length =
          ([1, 2] : List ℕ).length ∧
        ∀ row ∈ blockDatk [[cnan, cnum (1/2)], [cnum 1, cnum (1/4)]] [1, 2] 2,
          row.length = 2) :=
  ⟨by decide, by decide,
    pickSoftThreshold_nan_warned_zero_contribution
      [[cnan, cnum (1/2)], [cnum 1, cnum (1/4)]] [1, 2] 2 (by decide) (by decide)⟩

/-! ## WeightValidator: `checkAndScaleWeights` (main.py lines 38-59)

```
def checkAndScaleWeights(weights, expr, scaleByMax=True, verbose=1):
    if weights is None:
        return weights
    weights = np.asmatrix(weights)
    if expr.shape != weights.shape:
        sys.exit("When 'weights' are given, they must have the same dimensions as 'expr'.")
    if (weights < 0).any():
        sys.exit("Found negative weights. All weights must be non-negative.")
    nf = np.isinf(weights)
    if any(nf):
        if verbose > 0:
            warnings.WarningMessage("Found non-finite weights. ...")
            weights[nf] = None
    if scaleByMax:
        maxw = np.amax(weights, axis=0)
        maxw[maxw == 0] = 1
        weights = weights / np.reshape(maxw, weights.shape)
    return weights
```
Weight entries are modelled by `WVal` (finite rational, +inf, -inf, NaN).
Control flow of the non-finite branch and of the scaling step, traced on
numpy matrices of shape (n, m):
- `if any(nf):` uses the Python builtin `any`, which iterates the rows of
  the boolean matrix `nf` and calls `bool()` on each (1, m) row matrix;
  for m > 1 (and at least one row) that truth test itself raises
  `ValueError` (ambiguous truth value).  For m <= 1 it is "some entry is
  ±inf".
- inside the guard, `warnings.WarningMessage(msg)` is not a warning
  call: constructing a `WarningMessage` requires category / filename /
  lineno arguments, so the call raises `TypeError`, and the replacement
  `weights[nf] = None` on the next line is unreachable.  At
  `verbose <= 0` the whole guarded body is skipped and the non-finite
  entries survive.
- `np.amax(weights, axis=0)` has shape (1, m) (it raises `ValueError`
  on a zero-size matrix), and `np.reshape(maxw, weights.shape)` demands
  equal sizes: reshaping the m elements of `maxw` into (n, m) raises
  `ValueError` for every n > 1.  Only a single-row weight matrix reaches
  the division, which is then elementwise by the (zero-adjusted) column
  maxima.
Elementwise arithmetic follows numpy float semantics with the
process-wide `np.seterr(divide='ignore', invalid='ignore')` of line 22
in effect. -/

inductive WVal where
  | wnum : ℚ → WVal
  | winf : WVal
  | wneginf : WVal
  | wnan : WVal
deriving DecidableEq

open WVal

/-- `w < 0` elementwise (IEEE: NaN compares false). -/
def wIsNeg : WVal → Bool
  | wnum q => decide (q < 0)
  | winf => false
  | wneginf => true
  | wnan => false

/-- `np.isinf` (true for both infinities, false for NaN and finite). -/
def wIsInf : WVal → Bool
  | winf => true
  | wneginf => true
  | _ => false

/-- IEEE maximum as used by `np.amax` reduction (NaN propagates). -/
def wMax : WVal → WVal → WVal
  | wnan, _ => wnan
  | _, wnan => wnan
  | winf, _ => winf
  | _, winf => winf
  | wneginf, b => b
  | a, wneginf => a
  | wnum a, wnum b => wnum (max a b)

/-- IEEE division under `np.seterr(... ignore)`. -/
def wDiv : WVal → WVal → WVal
  | wnan, _ => wnan
  | _, wnan => wnan
  | wnum a, wnum b =>
      if b = 0 then (if a = 0 then wnan else if 0 < a then winf else wneginf)
      else wnum (a / b)
  | wnum _, winf => wnum 0
  | wnum _, wneginf => wnum 0
  | winf, wnum b => if b < 0 then wneginf else winf
  | wneginf, wnum b => if b < 0 then winf else wneginf
  | winf, winf => wnan
  | winf, wneginf => wnan
  | wneginf, winf => wnan
  | wneginf, wneginf => wnan

abbrev WMat := List (List WVal)

/-- Column `j` of a weight matrix. -/
def wColumn (m : WMat) (j : ℕ) : List WVal := m.map (fun r => r.getD j wnan)

/-- `np.amax(weights, axis=0)` of one column (columns are non-empty in
any shape-checked call). -/
def wColMax : List WVal → WVal
  | [] => wnan
  | h :: t => t.foldl wMax h

/-- `maxw[maxw == 0] = 1`. -/
def wZeroToOne (v : WVal) : WVal := if v = wnum 0 then wnum 1 else v

/-- `weights / np.reshape(maxw, weights.shape)`: each entry divided by
its column's (zero-adjusted) maximum.  Reached only for the single-row
shape that survives the reshape (see `checkAndScaleWeights`), where the
division is a plain elementwise (1, m) / (1, m). -/
def scaleByColumnMax (m : WMat) (ec : ℕ) : WMat :=
  let maxw := (List.range ec).map (fun j => wZeroToOne (wColMax (wColumn m j)))
  m.map (fun r => List.zipWith wDiv r maxw)

def checkAndScaleWeights (weights : Option WMat) (exprRows exprCols : ℕ)
    (scaleByMax : Bool) (verbose : ℤ) : Except String (Option WMat) :=
  match weights with
  | none => Except.ok none
  | some w =>
    if ¬(w.length = exprRows ∧ ∀ r ∈ w, r.length = exprCols) then
      Except.error "When weights are given, they must have the same dimensions as expr."
    else if w.any (fun r => r.any wIsNeg) then
      Except.error "Found negative weights. All weights must be non-negative."
    -- if any(nf): the builtin truth test of a (1, m) row matrix raises
    -- for m > 1 before any entry is inspected
    else if decide (1 < exprCols) && decide (0 < w.length) then
      Except.error "ValueError: truth value of a multi-column matrix row is ambiguous"
    else if (w.any (fun r => r.any wIsInf)) && decide (0 < verbose) then
      -- the replacement weights[nf] = None on line 52 is never executed:
      -- the malformed warnings.WarningMessage(msg) call raises first
      Except.error "TypeError: WarningMessage missing required arguments"
    else if scaleByMax then
      -- maxw = np.amax(weights, axis=0): ValueError on a zero-size matrix
      if decide (w.length = 0) || decide (exprCols = 0) then
        Except.error "ValueError: zero-size array to reduction operation maximum"
      -- np.reshape(maxw, weights.shape): size exprCols into (n, exprCols)
      -- fails for every n > 1
      else if decide (1 < w.length) then
        Except.error "ValueError: cannot reshape maxw into weights.shape"
      else Except.ok (some (scaleByColumnMax w exprCols))
    else Except.ok (some w)

/-- C6: a shape-matching, non-negative 2×1 weight matrix containing +inf.
At verbose = 0 the non-finite entry is NOT replaced with missing and no
warning is emitted: without scale-by-max the weights are returned with
the inf intact, and with scale-by-max the function then crashes with a
ValueError at `np.reshape(maxw, weights.shape)`.  At verbose = 1 the
warning path itself raises a TypeError instead of warning and
recovering.  In every case the claimed replace-with-missing-and-warn
behaviour is absent. -/
theorem checkAndScaleWeights_nonfinite_not_replaced :
    checkAndScaleWeights (some [[wnum 1], [winf]]) 2 1 false 0 =
        Except.ok (some [[wnum 1], [winf]]) ∧
      checkAndScaleWeights (some [[wnum 1], [winf]]) 2 1 true 0 =
        Except.error "ValueError: cannot reshape maxw into weights.shape" ∧
      checkAndScaleWeights (some [[wnum 1], [winf]]) 2 1 true 1 =
        Except.error "TypeError: WarningMessage missing required arguments" := by
  exact ⟨rfl, rfl, rfl⟩

/-! ## AdjacencyBuilder entry: `adjacency` (main.py lines 404-463)

```
def adjacency(datExpr, selectCols=None, type="unsigned", power=6, ..., weights=None, ...):
    intType = adjacencyTypes.index(type)
    if intType is None:
        sys.exit(...)
    checkAndScaleWeights(weights, datExpr, scaleByMax=False)
    if len(weights) > 0:
        ...
```
`list.index` raises `ValueError` for an unrecognized type (the
`is None` check is dead code).  The result of `checkAndScaleWeights` is
discarded (not assigned), but its `sys.exit`s would still abort.  Then
`len(weights)` is evaluated: with the default `weights=None` this raises
`TypeError: object of type 'NoneType' has no len()` — before any
correlation is computed.  (Even with weights supplied, the default
`selectCols=None` later hits `selectCols.isnull()`, an AttributeError,
still before any correlation; the correlation computation itself is the
`Except.ok` branch of the model below, never reached.) -/

def adjacencyCall (typeStr : String) (weights : Option WMat)
    (exprRows exprCols : ℕ) : Except String (List (List ℚ)) :=
  if typeStr ∉ adjacencyTypes then
    Except.error "ValueError: type is not in list"
  else
    match checkAndScaleWeights weights exprRows exprCols false 1 with
    | Except.error e => Except.error e
    | Except.ok _ =>
      match weights with
      | none => Except.error "TypeError: object of type NoneType has no len"
      | some _ =>
          -- default selectCols=None: selectCols.isnull() raises before
          -- scipy.stats.pearsonr could run
          Except.error "AttributeError: NoneType object has no attribute isnull"

/-- C10: every call to `adjacency` that omits the weight matrix
(weights = None, its default) fails before computing any correlation or
returning any adjacency matrix — `len(weights)` raises a TypeError right
after the (discarded) weight check. -/
theorem adjacency_default_weights_fails_early (typeStr : String)
    (exprRows exprCols : ℕ) (weights : Option WMat) (hw : weights = none) :
    ∃ e, adjacencyCall typeStr weights exprRows exprCols = Except.error e := by
  subst hw
  unfold adjacencyCall
  by_cases ht : typeStr ∉ adjacencyTypes
  · rw [if_pos ht]
    exact ⟨_, rfl⟩
  · rw [if_neg ht]
    exact ⟨_, rfl⟩

/-- C10 witness: the theorem applied to the default-style call
`adjacency(datExpr, type="signed")` on a 3×3 expression matrix. -/
theorem adjacency_default_weights_fails_early_witness :
    (none : Option WMat) = none ∧
      ∃ e, adjacencyCall "signed" none 3 3 = Except.error e :=
  ⟨rfl, adjacency_default_weights_fails_early "signed" 3 3 none rfl⟩

/-! ## GoodGeneFilter / GoodSampleFilter / FixedPointFilter
(main.py lines 63-112, 116-151, 155-182)

The expression matrix is `List (List (Option ℚ))`: one inner list per
gene (row), one entry per sample (column), `none` = missing value.  The
weighted code path is not modelled: the claims under verification concern
`goodSamplesGenes`, which the repository only exercises with
`weights=None` (the weighted branches of `goodGenesFun` contain TODO
placeholders in the source).  Pandas-Series operations are modelled
elementwise, with label alignment read off the row/column positions.
`sys.exit` is `Except.error`; `verbose` printing is ignored. -/

abbrev DMat := List (List (Option ℚ))

/-- Number of samples (`datExpr.shape[1]`). -/
def gsgWidth (dm : DMat) : ℕ := (dm.headD []).length

/-- `datExpr.abs().max().max()`: the largest absolute value among the
present entries (pandas max skips missing entries). -/
def maxAbsVal (dm : DMat) : ℚ :=
  dm.foldr
    (fun row acc =>
      row.foldr (fun x acc2 => match x with | some q => max |q| acc2 | none => acc2) acc)
    0

/-- The present (non-missing) values of one gene row among the samples
currently in use (`datExpr.loc[gg, useSamples]` restricted to one row). -/
def rowPresent (row : List (Option ℚ)) (useSamples : List Bool) : List ℚ :=
  (List.zipWith (fun u x => if u then x else none) useSamples row).filterMap id

/-- Count of missing entries of one gene row among the used samples. -/
def rowNAs (row : List (Option ℚ)) (useSamples : List Bool) : ℕ :=
  (List.zipWith (fun u x => u && x.isNone) useSamples row).count true

def listSum (l : List ℚ) : ℚ := l.foldr (· + ·) 0

/-- `np.var(..., axis=1)` dispatches to the pandas variance (skipna,
ddof = 0): the population variance of the present values; the `NaN` of
an empty selection is turned into 0 by line 101 (`var[np.isnan(var)] = 0`). -/
def popVar (l : List ℚ) : ℚ :=
  if l.length = 0 then 0
  else
    let m := listSum l / (l.length : ℚ)
    listSum (l.map (fun x => (x - m) ^ 2)) / (l.length : ℚ)

/-- The per-gene keep decision of `goodGenesFun` (lines 90-104): line 91
drops a used gene whose present count is below `minNSamples`; line 103
additionally requires few-enough missing values, variance above `tol²`,
and enough non-missing samples. -/
def goodGenesMask (dm : DMat) (useSamples useGenes : List Bool)
    (minFraction : ℚ) (minNSamples : ℕ) (tol : ℚ) : List Bool :=
  let nSamples := useSamples.count true
  List.zipWith
    (fun u row =>
      (u && !decide ((rowPresent row useSamples).length < minNSamples)) &&
        (decide ((rowNAs row useSamples : ℚ) < (1 - minFraction) * (nSamples : ℚ)) &&
          decide (popVar (rowPresent row useSamples) > tol ^ 2) &&
          decide ((nSamples : ℤ) - (rowNAs row useSamples : ℤ) ≥ (minNSamples : ℤ))))
    useGenes dm

/-- Default tolerance: `tol = 1e-10 * datExpr.abs().max().max()` when no
tolerance is supplied (lines 70-71). -/
def goodGenesTol (tolOpt : Option ℚ) (dm : DMat) : ℚ :=
  tolOpt.getD ((1 / 10 ^ 10) * maxAbsVal dm)

/-- `goodGenesFun` (weights = None).  Parameters follow the call sites:
`useSamples` then `useGenes`. -/
def goodGenesFun (dm : DMat) (useSamples useGenes : List Bool)
    (minFraction : ℚ) (minNSamples minNGenes : ℕ) (tolOpt : Option ℚ) :
    Except String (List Bool) :=
  if (goodGenesMask dm useSamples useGenes minFraction minNSamples
        (goodGenesTol tolOpt dm)).count true < minNGenes then
    Except.error "Too few genes with valid expression levels in the required number of samples."
  else
    Except.ok (goodGenesMask dm useSamples useGenes minFraction minNSamples
      (goodGenesTol tolOpt dm))

/-- Count of missing entries in column `j` among the used genes
(`np.sum(datExpr.loc_[useGenes, useSamples].isnull(), axis=0)` for one
column). -/
def colNAs (dm : DMat) (useGenes : List Bool) (j : ℕ) : ℕ :=
  (List.zipWith (fun u row => u && (row.getD j (none : Option ℚ)).isNone) useGenes dm).count true

/-- The per-sample keep decision of `goodSamplesFun` (lines 140-142). -/
def goodSamplesMask (dm : DMat) (useSamples useGenes : List Bool)
    (minFraction : ℚ) (minNGenes : ℕ) : List Bool :=
  let nGenes := useGenes.count true
  List.zipWith
    (fun u j =>
      u && (decide ((colNAs dm useGenes j : ℚ) < (1 - minFraction) * (nGenes : ℚ)) &&
        decide ((nGenes : ℤ) - (colNAs dm useGenes j : ℤ) ≥ (minNGenes : ℤ))))
    useSamples (List.range useSamples.length)

/-- `goodSamplesFun` (weights = None). -/
def goodSamplesFun (dm : DMat) (useSamples useGenes : List Bool)
    (minFraction : ℚ) (minNSamples minNGenes : ℕ) :
    Except String (List Bool) :=
  if (goodSamplesMask dm useSamples useGenes minFraction minNGenes).count true
      < minNSamples then
    Except.error "Too few samples with valid expression levels for the required number of genes."
  else Except.ok (goodSamplesMask dm useSamples useGenes minFraction minNGenes)

/-- The loop state of `goodSamplesGenes`: current masks, stored bad
counts, and the number of completed loop iterations. -/
structure GSGState where
  goodGenes : List Bool
  goodSamples : List Bool
  nBadGenes : ℕ
  nBadSamples : ℕ
  iters : ℕ
deriving DecidableEq

/-- `sys.exit` propagation: run the continuation only when the previous
filter call did not abort. -/
def exceptThen {α β : Type} (x : Except String α) (f : α → Except String β) :
    Except String β :=
  match x with
  | Except.error e => Except.error e
  | Except.ok a => f a

lemma exceptThen_ok {α β : Type} (a : α) (f : α → Except String β) :
    exceptThen (Except.ok a) f = f a := rfl

lemma exceptThen_error {α β : Type} (e : String) (f : α → Except String β) :
    exceptThen (Except.error e) f = Except.error e := rfl

/-- One iteration of the `while changed` body (lines 166-178), at the
default parameters of `goodSamplesGenes` (minFraction = 1/2,
minNSamples = 4, minNGenes = 4, tol = None): recompute the gene mask from
the previous masks, then the sample mask from the previous sample mask
and the fresh gene mask, then store the new bad counts. -/
def gsgBody (dm : DMat) (st : GSGState) : Except String GSGState :=
  exceptThen (goodGenesFun dm st.goodSamples st.goodGenes (1/2) 4 4 none)
    (fun gg =>
      exceptThen (goodSamplesFun dm st.goodSamples gg (1/2) 4 4)
        (fun gs =>
          Except.ok ⟨gg, gs, gg.count false, gs.count false, st.iters + 1⟩))

/-- `changed = (new bad gene count > old) or (new bad sample count > old)`
(lines 174-175). -/
def gsgChanged (st st' : GSGState) : Bool :=
  decide (st.nBadGenes < st'.nBadGenes) || decide (st.nBadSamples < st'.nBadSamples)

/-- Case split on a filter outcome (an aborting `sys.exit` terminates
the whole loop). -/
def exceptCase {α β : Type} (x : Except String α) (fe : String → β)
    (fo : α → β) : β :=
  match x with
  | Except.error e => fe e
  | Except.ok a => fo a

lemma exceptCase_ok {α β : Type} (a : α) (fe : String → β) (fo : α → β) :
    exceptCase (Except.ok a) fe fo = fo a := rfl

lemma exceptCase_error {α β : Type} (e : String) (fe : String → β) (fo : α → β) :
    exceptCase (Except.error e) fe fo = fe e := rfl

/-- The `while changed` loop; one unit of fuel per executed iteration,
`none` = the loop did not finish within the given fuel.  On exit it
returns (goodGenes, goodSamples, allOK, number of iterations) with
`allOK = (nBadGenes + nBadSamples == 0)` (line 180). -/
def gsgLoop (dm : DMat) : ℕ → GSGState → Option (Except String (List Bool × List Bool × Bool × ℕ))
  | 0, _ => none
  | fuel + 1, st =>
    exceptCase (gsgBody dm st) (fun e => some (Except.error e))
      (fun st' =>
        if gsgChanged st st' then gsgLoop dm fuel st'
        else
          some (Except.ok (st'.goodGenes, st'.goodSamples,
            decide (st'.nBadGenes + st'.nBadSamples = 0), st'.iters)))

lemma gsgLoop_succ (dm : DMat) (fuel : ℕ) (st : GSGState) :
    gsgLoop dm (fuel + 1) st =
      exceptCase (gsgBody dm st) (fun e => some (Except.error e))
        (fun st' =>
          if gsgChanged st st' then gsgLoop dm fuel st'
          else
            some (Except.ok (st'.goodGenes, st'.goodSamples,
              decide (st'.nBadGenes + st'.nBadSamples = 0), st'.iters))) := rfl

/-- Initial state: both masks all-true (`goodGenes = goodSamples = None`
is substituted by all-true inside the filter functions), bad counts 0. -/
def gsgInit (dm : DMat) : GSGState :=
  ⟨List.replicate dm.length true, List.replicate (gsgWidth dm) true, 0, 0, 0⟩

def goodSamplesGenes (dm : DMat) (fuel : ℕ) :
    Option (Except String (List Bool × List Bool × Bool × ℕ)) :=
  gsgLoop dm fuel (gsgInit dm)

/-! Lemmas for monotonicity and termination of the fixed-point loop. -/

/-- Loop invariant: the masks have the matrix's dimensions and the stored
bad counts are the false-counts of the masks. -/
abbrev GSGInv (dm : DMat) (st : GSGState) : Prop :=
  st.goodGenes.length = dm.length ∧
    st.goodSamples.length = gsgWidth dm ∧
    st.nBadGenes = st.goodGenes.count false ∧
    st.nBadSamples = st.goodSamples.count false

lemma count_false_replicate_true (n : ℕ) :
    (List.replicate n true).count false = 0 := by
  rw [List.count_replicate]
  simp

lemma count_true_add_count_false (l : List Bool) :
    l.count true + l.count false = l.length := by
  induction l with
  | nil => rfl
  | cons b t ih =>
      cases b <;> simp [List.count_cons, ih] <;> omega

/-- A zipWith whose function can only clear bits produces a mask
pointwise below its first argument. -/
lemma zipWith_clears_bits {α : Type} (g : Bool → α → Bool)
    (hg : ∀ b a, g b a = true → b = true) :
    ∀ (l : List Bool) (aux : List α), l.length ≤ aux.length →
      List.Forall₂ (fun n o => n = true → o = true) (List.zipWith g l aux) l := by
  intro l
  induction l with
  | nil => intro aux _; exact List.Forall₂.nil
  | cons b t ih =>
      intro aux hlen
      cases aux with
      | nil => simp at hlen
      | cons a rest =>
          exact List.Forall₂.cons (hg b a) (ih rest (by simpa using hlen))

/-- A pointwise-smaller mask has at least as many `false` entries. -/
lemma count_false_mono {new old : List Bool}
    (h : List.Forall₂ (fun n o => n = true → o = true) new old) :
    old.count false ≤ new.count false := by
  induction h with
  | nil => exact le_refl 0
  | @cons n o tn t₂ hno _ ih =>
      cases o with
      | true => cases n <;> simp [List.count_cons] <;> omega
      | false =>
          have hn : n = false := by
            cases n with
            | true => exact absurd (hno rfl) (by simp)
            | false => rfl
          subst hn
          simp [List.count_cons]
          omega

lemma goodGenesMask_clears (dm : DMat) (us ug : List Bool) (mf : ℚ)
    (mns : ℕ) (tol : ℚ) (hlen : ug.length ≤ dm.length) :
    List.Forall₂ (fun n o => n = true → o = true)
      (goodGenesMask dm us ug mf mns tol) ug := by
  apply zipWith_clears_bits _ _ _ _ hlen
  intro b a hba
  have := (Bool.and_eq_true _ _).mp hba
  exact ((Bool.and_eq_true _ _).mp this.1).1

lemma goodSamplesMask_clears (dm : DMat) (us ug : List Bool) (mf : ℚ)
    (mng : ℕ) :
    List.Forall₂ (fun n o => n = true → o = true)
      (goodSamplesMask dm us ug mf mng) us := by
  apply zipWith_clears_bits _ _ _ _ (by simp)
  intro b a hba
  exact ((Bool.and_eq_true _ _).mp hba).1

lemma goodGenesFun_ok {dm : DMat} {us ug : List Bool} {mf : ℚ}
    {mns mng : ℕ} {tolOpt : Option ℚ} {gg : List Bool}
    (h : goodGenesFun dm us ug mf mns mng tolOpt = Except.ok gg) :
    gg = goodGenesMask dm us ug mf mns (goodGenesTol tolOpt dm) ∧
      mng ≤ gg.count true := by
  unfold goodGenesFun at h
  split at h
  · exact absurd h (by simp)
  · next hc =>
      exact ⟨(Except.ok.inj h).symm, by rw [← Except.ok.inj h]; omega⟩

lemma goodSamplesFun_ok {dm : DMat} {us ug : List Bool} {mf : ℚ}
    {mns mng : ℕ} {gs : List Bool}
    (h : goodSamplesFun dm us ug mf mns mng = Except.ok gs) :
    gs = goodSamplesMask dm us ug mf mng ∧ mns ≤ gs.count true := by
  unfold goodSamplesFun at h
  split at h
  · exact absurd h (by simp)
  · next hc =>
      exact ⟨(Except.ok.inj h).symm, by rw [← Except.ok.inj h]; omega⟩

/-- Everything the fuel argument needs about one successful iteration:
the invariant is preserved, the bad counts do not decrease, and (because
a successful pass keeps at least `minNGenes = 4` genes and
`minNSamples = 4` samples) the bad counts stay at least 4 below the
totals. -/
lemma gsgBody_ok_facts {dm : DMat} {st st' : GSGState}
    (hinv : GSGInv dm st) (hok : gsgBody dm st = Except.ok st') :
    GSGInv dm st' ∧
      st.nBadGenes ≤ st'.nBadGenes ∧ st.nBadSamples ≤ st'.nBadSamples ∧
      st'.nBadGenes + 4 ≤ dm.length ∧ st'.nBadSamples + 4 ≤ gsgWidth dm := by
  obtain ⟨hlg, hls, hbg, hbs⟩ := hinv
  unfold gsgBody at hok
  cases hgg : goodGenesFun dm st.goodSamples st.goodGenes (1/2) 4 4 none with
  | error e =>
      rw [hgg, exceptThen_error] at hok
      exact absurd hok (by simp)
  | ok gg =>
    rw [hgg, exceptThen_ok] at hok
    cases hgs : goodSamplesFun dm st.goodSamples gg (1/2) 4 4 with
    | error e =>
        rw [hgs, exceptThen_error] at hok
        exact absurd hok (by simp)
    | ok gs =>
      rw [hgs, exceptThen_ok] at hok
      have hst' : st' = ⟨gg, gs, gg.count false, gs.count false, st.iters + 1⟩ :=
        (Except.ok.inj hok).symm
      subst hst'
      obtain ⟨hggm, hggc⟩ := goodGenesFun_ok hgg
      obtain ⟨hgsm, hgsc⟩ := goodSamplesFun_ok hgs
      have hF₂g : List.Forall₂ (fun n o => n = true → o = true) gg st.goodGenes := by
        rw [hggm]; exact goodGenesMask_clears dm _ _ _ _ _ (le_of_eq hlg)
      have hF₂s : List.Forall₂ (fun n o => n = true → o = true) gs st.goodSamples := by
        rw [hgsm]; exact goodSamplesMask_clears dm _ _ _ _
      have hlg' : gg.length = dm.length := by
        rw [hggm]
        unfold goodGenesMask
        rw [List.length_zipWith, hlg, min_self]
      have hls' : gs.length = gsgWidth dm := by
        rw [hF₂s.length_eq, hls]
      refine ⟨⟨hlg', hls', rfl, rfl⟩, ?_, ?_, ?_, ?_⟩
      · show st.nBadGenes ≤ gg.count false
        rw [hbg]; exact count_false_mono hF₂g
      · show st.nBadSamples ≤ gs.count false
        rw [hbs]; exact count_false_mono hF₂s
      · show gg.count false + 4 ≤ dm.length
        have := count_true_add_count_false gg
        rw [hlg'] at this
        omega
      · show gs.count false + 4 ≤ gsgWidth dm
        have := count_true_add_count_false gs
        rw [hls'] at this
        omega

/-- The loop cannot run out of fuel when the remaining fuel dominates the
remaining possible strict increases of the bad counts. -/
lemma gsgLoop_enough_fuel (dm : DMat) :
    ∀ (fuel : ℕ) (st : GSGState), GSGInv dm st → 1 ≤ fuel →
      dm.length + gsgWidth dm ≤ fuel + st.nBadGenes + st.nBadSamples + 7 →
      gsgLoop dm fuel st ≠ none := by
  intro fuel
  induction fuel with
  | zero => intro st _ h1 _; omega
  | succ f ih =>
      intro st hinv _ hbound
      rw [gsgLoop_succ]
      cases hb : gsgBody dm st with
      | error e =>
          rw [exceptCase_error]
          simp
      | ok st' =>
          simp only [exceptCase_ok]
          obtain ⟨hinv', hmg, hms, hbg4, hbs4⟩ := gsgBody_ok_facts hinv hb
          cases hch : gsgChanged st st' with
          | false =>
              rw [if_neg (by simp [hch])]
              simp
          | true =>
              rw [if_pos (by simp [hch])]
              have hstrict : st.nBadGenes + st.nBadSamples + 1 ≤
                  st'.nBadGenes + st'.nBadSamples := by
                unfold gsgChanged at hch
                rcases (Bool.or_eq_true _ _).mp hch with h | h <;>
                  simp only [decide_eq_true_eq] at h <;> omega
              apply ih st' hinv' <;> omega

/-- C3: across the iterations of the `goodSamplesGenes` fixed-point loop
the excluded-gene and excluded-sample counts are each non-decreasing
(every successful iteration of the body can only keep or grow them), and
for every non-empty numeric matrix the loop terminates — by convergence
or by a filter abort — within gene_count + sample_count iterations:
running it with that much fuel never exhausts the fuel. -/
theorem goodSamplesGenes_monotone_and_terminating (dm : DMat)
    (st st' : GSGState) (hinv : GSGInv dm st)
    (hok : gsgBody dm st = Except.ok st')
    (hne : 0 < dm.length + gsgWidth dm) :
    (st.nBadGenes ≤ st'.nBadGenes ∧ st.nBadSamples ≤ st'.nBadSamples) ∧
      goodSamplesGenes dm (dm.length + gsgWidth dm) ≠ none := by
  obtain ⟨_, hmg, hms, _, _⟩ := gsgBody_ok_facts hinv hok
  refine ⟨⟨hmg, hms⟩, ?_⟩
  apply gsgLoop_enough_fuel dm _ _ ?_ ?_ ?_
  · exact ⟨by simp [gsgInit], by simp [gsgInit],
      by simp [gsgInit, count_false_replicate_true],
      by simp [gsgInit, count_false_replicate_true]⟩
  · omega
  · simp [gsgInit]

/-- A concrete 4×4 expression matrix with no missing values and positive
per-gene variance: every threshold of the filters is already satisfied. -/
def dmDemo : DMat :=
  [[some 1, some 2, some 3, some 4],
   [some 2, some 4, some 6, some 8],
   [some 1, some 3, some 5, some 7],
   [some 0, some 1, some 0, some 1]]

set_option maxRecDepth 100000 in
/-- C3 witness: the theorem applied to `dmDemo` with the initial state
and the result of its first iteration. -/
theorem goodSamplesGenes_monotone_and_terminating_witness :
    GSGInv dmDemo (gsgInit dmDemo) ∧
      gsgBody dmDemo (gsgInit dmDemo) =
        Except.ok ⟨List.replicate 4 true, List.replicate 4 true, 0, 0, 1⟩ ∧
      0 < dmDemo.length + gsgWidth dmDemo ∧
      (((gsgInit dmDemo).nBadGenes ≤
            (GSGState.mk (List.replicate 4 true) (List.replicate 4 true) 0 0 1).nBadGenes ∧
          (gsgInit dmDemo).nBadSamples ≤
            (GSGState.mk (List.replicate 4 true) (List.replicate 4 true) 0 0 1).nBadSamples) ∧
        goodSamplesGenes dmDemo (dmDemo.length + gsgWidth dmDemo) ≠ none) :=
  ⟨by decide, rfl, by decide,
    goodSamplesGenes_monotone_and_terminating dmDemo (gsgInit dmDemo)
      ⟨List.replicate 4 true, List.replicate 4 true, 0, 0, 1⟩
      (by decide) rfl (by decide)⟩

/-- C4: whenever the very first pass of the gene filter and of the sample
filter excludes nothing (both return the all-true mask), the
`goodSamplesGenes` loop performs exactly one iteration and returns
allOK = true with the all-true gene and sample keep-masks. -/
theorem goodSamplesGenes_clean_first_pass (dm : DMat) (fuel : ℕ)
    (hg : goodGenesFun dm (List.replicate (gsgWidth dm) true)
        (List.replicate dm.length true) (1/2) 4 4 none =
      Except.ok (List.replicate dm.length true))
    (hs : goodSamplesFun dm (List.replicate (gsgWidth dm) true)
        (List.replicate dm.length true) (1/2) 4 4 =
      Except.ok (List.replicate (gsgWidth dm) true))
    (hfuel : 1 ≤ fuel) :
    goodSamplesGenes dm fuel =
      some (Except.ok (List.replicate dm.length true,
        List.replicate (gsgWidth dm) true, true, 1)) := by
  obtain ⟨f, rfl⟩ : ∃ f, fuel = f + 1 := ⟨fuel - 1, by omega⟩
  have hbody : gsgBody dm (gsgInit dm) =
      Except.ok ⟨List.replicate dm.length true,
        List.replicate (gsgWidth dm) true,
        (List.replicate dm.length true).count false,
        (List.replicate (gsgWidth dm) true).count false, 1⟩ := by
    unfold gsgBody gsgInit
    dsimp only
    rw [hg, exceptThen_ok, hs, exceptThen_ok]
  have hch : gsgChanged (gsgInit dm)
      ⟨List.replicate dm.length true, List.replicate (gsgWidth dm) true,
        (List.replicate dm.length true).count false,
        (List.replicate (gsgWidth dm) true).count false, 1⟩ = false := by
    unfold gsgChanged gsgInit
    simp [count_false_replicate_true]
  unfold goodSamplesGenes
  rw [gsgLoop_succ]
  simp only [hbody, exceptCase_ok]
  rw [if_neg (by simp [hch])]
  simp [count_false_replicate_true]

set_option maxRecDepth 100000 in
/-- C4 witness: the theorem applied to `dmDemo`, whose first filter pass
keeps everything. -/
theorem goodSamplesGenes_clean_first_pass_witness :
    goodGenesFun dmDemo (List.replicate (gsgWidth dmDemo) true)
        (List.replicate dmDemo.length true) (1/2) 4 4 none =
      Except.ok (List.replicate dmDemo.length true) ∧
      goodSamplesFun dmDemo (List.replicate (gsgWidth dmDemo) true)
          (List.replicate dmDemo.length true) (1/2) 4 4 =
        Except.ok (List.replicate (gsgWidth dmDemo) true) ∧
      1 ≤ 1 ∧
      goodSamplesGenes dmDemo 1 =
        some (Except.ok (List.replicate dmDemo.length true,
          List.replicate (gsgWidth dmDemo) true, true, 1)) :=
  ⟨rfl, rfl, le_refl 1,
    goodSamplesGenes_clean_first_pass dmDemo 1 rfl rfl (le_refl 1)⟩

end PyWGCNA
